import Mathlib

/-!
Verification development for the callable-bond pricing library
(`callable_pricer`): a shallow embedding, over the rationals, of the
orchestrator (`pricer.py`) and the decisive fragments of the three manual
engines (`engines/hw_lsmc.py`, `engines/cir_pde.py`, `engines/bk_tree.py`),
together with theorems settling the specification claims about them.

Modelling conventions:
- Python floats are modelled by `ℚ`; literals such as `1e-8` become exact
  rationals.  Irrational quantities produced outside the modelled fragment
  (seeded normal draws, `exp`-based discount factors, the simulated state
  matrix, `np.log 0.05`) enter the embedding as explicit parameters.
- A QuantLib `RelinkableYieldTermStructureHandle` is modelled by a mutable
  link of type `Curve`; relinking is explicit state passing.
- A Python `raise` that crosses the modelled fragment is an `Except.error`;
  `try/except`/`try/finally` are translated by matching on the `Except`.
-/

namespace CallablePricer

/-- Term-structure objects reachable from the base handle.  `Curve.base` is
an underlying curve object; `Curve.spread c s` is the
`ZeroSpreadedTermStructure` built over `c` with (decimal) spread `s`. -/
inductive Curve where
  | base (id : ℕ)
  | spread (c : Curve) (s : ℚ)
deriving DecidableEq

/-- Outcome of `MasterPricer.metrics`: `(P0, effDuration, effConvexity, cache)`.
The cache slot is type-parametric: the orchestrator treats it as opaque. -/
structure MetricsOut (S : Type) where
  p0 : ℚ
  dur : ℚ
  conv : ℚ
  cache : Option S
deriving DecidableEq

/-- `MasterPricer.metrics` (pricer.py, lines 132-170), embedded with explicit
link state.  `calcF c sc` stands for `self.calculate(params, method, oas, sc)`
run while the base handle is linked to `c` (the engines read the current
link and never relink, so the price is a function of the link and the cache).
The returned `Curve` is the base handle's link when the call exits, on both
normal and error exits; the `try/finally` of the source is the final `match`,
which overwrites the link with `basePtr` on every exit of the try body. -/
def metrics {E S : Type} (calcF : Curve → Option S → Except E (ℚ × Option S))
    (dy : ℚ) (link0 : Curve) (cache0 : Option S) :
    Except E (MetricsOut S) × Curve :=
  match calcF link0 cache0 with
  | .error e => (.error e, link0)
  | .ok (P0, state) =>
    if P0 ≤ 1 / 100000000 then
      (.ok ⟨0, 0, 0, state⟩, link0)
    else if |dy| < 1 / 1000000000000 then
      (.ok ⟨P0, 0, 0, state⟩, link0)
    else
      let basePtr := link0
      let tryBody : Except E (ℚ × ℚ) × Curve :=
        match calcF (Curve.spread basePtr dy) state with
        | .error e => (.error e, Curve.spread basePtr dy)
        | .ok (Pup, _) =>
          match calcF (Curve.spread basePtr (-dy)) state with
          | .error e => (.error e, Curve.spread basePtr (-dy))
          | .ok (Pdn, _) => (.ok (Pup, Pdn), Curve.spread basePtr (-dy))
      match tryBody with
      | (.error e, _) => (.error e, basePtr)
      | (.ok (Pup, Pdn), _) =>
        (.ok ⟨P0, (Pdn - Pup) / (2 * P0 * dy),
              (Pup + Pdn - 2 * P0) / (P0 * dy ^ 2), state⟩, basePtr)

/-- `needle.isPrefixOf`-based substring containment on character lists,
modelling Python's `"QL_TREE" in method`. -/
def hasSubstr (needle : List Char) : List Char → Bool
  | [] => needle.isEmpty
  | c :: rest => needle.isPrefixOf (c :: rest) || hasSubstr needle rest

/-- The characters of the reference-tree tag checked by substring test. -/
def qlTreeTag : List Char := ("QL_TREE").toList

/-- Method keys dispatched by `MasterPricer.calculate`. -/
def mStraight : String := "STRAIGHT BOND"

/-- Method key of the manual Hull-White LSMC engine. -/
def mHwLsmc : String := "HW_LSMC"

/-- Method key of the manual CIR PDE engine. -/
def mCirPde : String := "CIR_PDE"

/-- Method key of the manual tree engine. -/
def mKwfManual : String := "KWF_MANUAL"

/-- Method key of the QuantLib Hull-White reference tree. -/
def mHwQl : String := "HW_QL_TREE"

/-- Method key of the QuantLib extended-CIR reference tree. -/
def mCirQl : String := "CIR_QL_TREE"

/-- Method key of the QuantLib Black-Karasinski reference tree. -/
def mKwfQl : String := "KWF_QL_TREE"

/-- `MasterPricer.calculate` (pricer.py, lines 58-113).  The QuantLib
reference computations and the three engines are oracles: `straight` is the
straight-bond clean price, `engHW`/`engPDE`/`engKWF` are the manual-engine
dirty-price calls (their exceptions propagate), and `qlTree m` is the
model construction plus `cleanPrice()` of the QuantLib tree branch, whose
exceptions the source catches (`except Exception: return 0.0, None`). -/
def calculate {E S : Type} (straight : Except E ℚ) (accrued : ℚ)
    (engHW engPDE engKWF : Except E (ℚ × S))
    (qlTree : String → Except E ℚ) (method : String) :
    Except E (ℚ × Option S) :=
  if method = mStraight then
    match straight with
    | .error e => .error e
    | .ok p => .ok (p, none)
  else if method = mHwLsmc then
    match engHW with
    | .error e => .error e
    | .ok (d, sc) => .ok (d - accrued, some sc)
  else if method = mCirPde then
    match engPDE with
    | .error e => .error e
    | .ok (d, sc) => .ok (d - accrued, some sc)
  else if method = mKwfManual then
    match engKWF with
    | .error e => .error e
    | .ok (d, sc) => .ok (d - accrued, some sc)
  else if hasSubstr qlTreeTag method.toList then
    if method = mHwQl ∨ method = mCirQl ∨ method = mKwfQl then
      match qlTree method with
      | .error _ => .ok (0, none)
      | .ok p => .ok (p, none)
    else
      .ok (0, none)
  else
    .ok (0, none)

/-- Regression coefficients for the quadratic basis `[1, X, X²]`. -/
def Betas : Type := ℚ × ℚ × ℚ

instance : DecidableEq Betas := by unfold Betas; infer_instance

/-- The zero coefficient vector, `np.zeros(3)`. -/
def zeroBetas : Betas := (0, 0, 0)

/-- `basis @ betas` for one path whose state is `x`:
`b0·1 + b1·x + b2·x²` (hw_lsmc.py line 184 with basis of line 173). -/
def basisVal (b : Betas) (x : ℚ) : ℚ := b.1 + b.2.1 * x + b.2.2 * x ^ 2

/-- The MC engine's state cache (hw_lsmc.py lines 63-69): the CRN matrix
`rng`, the per-step regression coefficients `regressions` (keyed by the loop
index `i`, stored in write order), and the `exercise_prob` diagnostics
(keyed here by the call step `i+1`, standing for the call date). -/
structure MCCache where
  rng : List (List ℚ)
  regressions : List (ℕ × Betas)
  exProb : List (ℕ × ℚ)
deriving DecidableEq

/-- Abstract least-squares solver: given the per-path basis state
`X[:, i+1]` and the per-path values, returns coefficients, or `none` when
`np.linalg.lstsq` raises. -/
def Lstsq : Type := (ℕ → ℚ) → (ℕ → ℚ) → Option Betas

/-- Sum of the amounts of the cashflows whose time lies in `(t, tn]`
(hw_lsmc.py lines 161-165: every path receives the same total). -/
def stepCashflow (cfs : List (ℚ × ℚ)) (t tn : ℚ) : ℚ :=
  (cfs.filter (fun c => decide (t < c.1) && decide (c.1 ≤ tn))).foldl
    (fun s c => s + c.2) 0

/-- Mutable state of the backward-induction loop: per-path running values
and the cache fields the base run writes. -/
structure LoopState where
  V : ℕ → ℚ
  regs : List (ℕ × Betas)
  exProb : List (ℕ × ℚ)

/-- Fraction of the first `nPaths` paths that a predicate marks as
exercised, `np.mean(exercise)`. -/
def exerciseFrac (nPaths : ℕ) (ex : ℕ → Bool) : ℚ :=
  ((List.range nPaths).countP ex : ℚ) / (nPaths : ℚ)

/-- The regression coefficients used at a call step (hw_lsmc.py lines
175-182): on the base run, fit by least squares with default `np.zeros(3)`
when the solver raises (the `try/except` of lines 176-179); on a bumped
run, look up the frozen coefficients stored under the loop index `i`, with
default `np.zeros(3)` when absent. -/
def bodyBetas (lstsq : Lstsq) (isBase : Bool) (regs : List (ℕ × Betas))
    (xcol V2 : ℕ → ℚ) (i : ℕ) : Betas :=
  match isBase with
  | true => (lstsq xcol V2).getD zeroBetas
  | false => (regs.lookup i).getD zeroBetas

/-- One iteration of the LSMC backward-induction loop at index `i`
(hw_lsmc.py lines 153-191): discount each path by its one-step factor
`D p i` (standing for `exp (-R[p,i]·dt)`), add the cashflows of
`(t_i, t_{i+1}]`, and, when step `i+1` is a call step, fit (base run) or
look up (bumped run) the regression, estimate continuation, and apply the
issuer's exercise rule.  `X p i` is the simulated state matrix and
`tg i = i·dt` the time grid. -/
def lsmcBody (nPaths : ℕ) (X D : ℕ → ℕ → ℚ) (tg : ℕ → ℚ)
    (cfs : List (ℚ × ℚ)) (callMap : ℕ → Option ℚ) (lstsq : Lstsq)
    (isBase : Bool) (s : LoopState) (i : ℕ) : LoopState :=
  let V1 : ℕ → ℚ := fun p => s.V p * D p i
  let amt := stepCashflow cfs (tg i) (tg (i + 1))
  let V2 : ℕ → ℚ := fun p => V1 p + amt
  match callMap (i + 1) with
  | none => { s with V := V2 }
  | some strike =>
    let xcol : ℕ → ℚ := fun p => X p (i + 1)
    let betas : Betas := bodyBetas lstsq isBase s.regs xcol V2 i
    let regs' := match isBase with
      | true => (i, betas) :: s.regs
      | false => s.regs
    let ex : ℕ → Bool := fun p => decide (basisVal betas (xcol p) - amt > strike)
    let exProb' := match isBase with
      | true => (i + 1, exerciseFrac nPaths ex) :: s.exProb
      | false => s.exProb
    let V3 : ℕ → ℚ := fun p => if ex p then strike + amt else V2 p
    { V := V3, regs := regs', exProb := exProb' }

/-- The full backward induction, `for i in range(N-1, -1, -1)`
(hw_lsmc.py lines 150-191), starting from `V = np.zeros(n_paths)`. -/
def lsmcInduction (nPaths : ℕ) (X D : ℕ → ℕ → ℚ) (tg : ℕ → ℚ)
    (cfs : List (ℚ × ℚ)) (callMap : ℕ → Option ℚ) (lstsq : Lstsq)
    (isBase : Bool) (N : ℕ) (regs0 : List (ℕ × Betas))
    (exProb0 : List (ℕ × ℚ)) : LoopState :=
  ((List.range N).reverse).foldl
    (lsmcBody nPaths X D tg cfs callMap lstsq isBase)
    ⟨fun _ => 0, regs0, exProb0⟩

/-- Arithmetic mean of `V` over the first `nPaths` paths, `np.mean(V)`. -/
def pathMean (nPaths : ℕ) (V : ℕ → ℚ) : ℚ :=
  ((List.range nPaths).foldl (fun s p => s + V p) 0) / (nPaths : ℚ)

/-- `HullWhiteLSMCEngine.price` after the simulation phase
(hw_lsmc.py lines 63-195, with the seeded normal matrix `freshRng`, the
simulated state `X` and the per-step discount factors `D` supplied as
parameters because their values are irrational).  Returns the mean price
and the cache; the standard error (an irrational square root) is not
modelled, no claim concerns it.  `isBase` is decided once, before the
loop, from emptiness of the supplied cache's coefficient map (line 151). -/
def hwLsmcPrice (lstsq : Lstsq) (freshRng : List (List ℚ))
    (X D : ℕ → ℕ → ℚ) (tg : ℕ → ℚ) (cfs : List (ℚ × ℚ))
    (callMap : ℕ → Option ℚ) (N : ℕ) (cache0 : Option MCCache) :
    ℚ × MCCache :=
  let cache := cache0.getD ⟨freshRng, [], []⟩
  let nPaths := cache.rng.length
  let isBase := cache.regressions.isEmpty
  let fin := lsmcInduction nPaths X D tg cfs callMap lstsq isBase N
    cache.regressions cache.exProb
  (pathMean nPaths fin.V, ⟨cache.rng, fin.regs, fin.exProb⟩)

/-- The PDE engine's state cache (cir_pde.py line 47): the dict
`{'r0_base': r0}`.  The field is an `Option` because `state_cache.get` is
used with a default, so a supplied dict without the key is representable. -/
structure PDECache where
  r0Base : Option ℚ
deriving DecidableEq

/-- The theta-shift phase of `CIRPDEEngine.price` (cir_pde.py lines 43-53):
create the cache on the base call, and when the config flag
`pde_shift_theta_with_curve` is set (its default is `True`), shift
`theta = theta_base + (r0 - r0_base)` where `r0_base` is read from the
cache with default `r0`.  Returns the effective theta and the cache that
the engine later returns unchanged (line 156). -/
def cirThetaPhase (shiftFlag : Bool) (thetaBase r0 : ℚ)
    (cache0 : Option PDECache) : ℚ × PDECache :=
  let cache := cache0.getD ⟨some r0⟩
  let theta := match shiftFlag with
    | true => thetaBase + (r0 - cache.r0Base.getD r0)
    | false => thetaBase
  (theta, cache)

/-- Parameters of the Crank-Nicolson operator construction
(cir_pde.py lines 56-80): effective theta, CIR speed `k` and vol `sigma`,
time step `dt`, grid spacing `dr` and lower grid bound `rmin`. -/
structure CNParams where
  theta : ℚ
  k : ℚ
  sigma : ℚ
  dt : ℚ
  dr : ℚ
  rmin : ℚ
deriving DecidableEq

/-- Node `j` of the uniform rate grid, `r[j] = r_min + j·dr` (line 56). -/
def gridR (p : CNParams) (j : ℕ) : ℚ := p.rmin + j * p.dr

/-- CIR drift at node `j`: `k·(theta − r_j)` (line 70). -/
def cirDrift (p : CNParams) (j : ℕ) : ℚ := p.k * (p.theta - gridR p j)

/-- CIR diffusion at node `j`: `0.5·sigma²·r_j` (line 71). -/
def cirDiff (p : CNParams) (j : ℕ) : ℚ := 1 / 2 * p.sigma ^ 2 * gridR p j

/-- Implicit-operator sub-diagonal coefficient `A[j]` before the boundary
correction (line 74). -/
def coeffA (p : CNParams) (j : ℕ) : ℚ :=
  -(1 / 4) * p.dt * (cirDiff p j / p.dr ^ 2 - cirDrift p j / (2 * p.dr))

/-- Implicit-operator diagonal coefficient `B[j]` before the boundary
correction (line 75). -/
def coeffB (p : CNParams) (j : ℕ) : ℚ :=
  1 + 1 / 2 * p.dt * (gridR p j + cirDiff p j / p.dr ^ 2)

/-- Implicit-operator super-diagonal coefficient `C[j]` before the boundary
correction (line 76). -/
def coeffC (p : CNParams) (j : ℕ) : ℚ :=
  -(1 / 4) * p.dt * (cirDiff p j / p.dr ^ 2 + cirDrift p j / (2 * p.dr))

/-- `A` after the lower-boundary correction (lines 83-85):
`B[0] += 2·A[0]; C[0] -= A[0]; A[0] = 0.0`. -/
def coeffA' (p : CNParams) (j : ℕ) : ℚ :=
  if j = 0 then 0 else coeffA p j

/-- `B` after the lower-boundary correction (lines 83-85). -/
def coeffB' (p : CNParams) (j : ℕ) : ℚ :=
  if j = 0 then coeffB p 0 + 2 * coeffA p 0 else coeffB p j

/-- `C` after the lower-boundary correction (lines 83-85). -/
def coeffC' (p : CNParams) (j : ℕ) : ℚ :=
  if j = 0 then coeffC p 0 - coeffA p 0 else coeffC p j

/-- Entry `(i, j)` of the implicit operator
`M_L = sparse.diags([A[1:], B, C[:-1]], [-1, 0, 1])` (line 87), after the
boundary correction: sub-diagonal entry of row `i ≥ 1` is `A[i]`, diagonal
is `B[i]`, super-diagonal is `C[i]`, all other entries vanish. -/
def matL (p : CNParams) (i j : ℕ) : ℚ :=
  if i = j then coeffB' p i
  else if i = j + 1 then coeffA' p i
  else if j = i + 1 then coeffC' p i
  else 0

/-- Rounding to the nearest integer with ties to even, the semantics of
`np.round` used for the branch offset (bk_tree.py line 63). -/
def roundHalfEven (q : ℚ) : ℤ :=
  if Int.fract q < 1 / 2 then ⌊q⌋
  else if 1 / 2 < Int.fract q then ⌊q⌋ + 1
  else if Even ⌊q⌋ then ⌊q⌋ else ⌊q⌋ + 1

/-- Branch offset and trinomial probabilities at node index `j`
(bk_tree.py lines 62-66): drift `mu = −a·j·dx`, offset
`k = round(mu·dt/dx)` (nearest, ties to even), and
`pu = 1/6 + ((m−k)² + (m−k))/2`, `pd = 1/6 + ((m−k)² − (m−k))/2`,
`pm = 1 − pu − pd` where `m = mu·dt/dx`.  `dx` stands for
`sigma·sqrt(3·dt)` and is a parameter because it is irrational. -/
def treeBranch (a dt dx : ℚ) (j : ℤ) : ℤ × ℚ × ℚ × ℚ :=
  let mu := -a * (j : ℚ) * dx
  let m := mu * dt / dx
  let k := roundHalfEven m
  let e := m - (k : ℚ)
  let pu := 1 / 6 + (e ^ 2 + e) / 2
  let pd := 1 / 6 + (e ^ 2 - e) / 2
  let pm := 1 - pu - pd
  (k, pu, pm, pd)

/-- The forward-calibration loop `for i in range(N-1)` of
`BKManualTreeEngine.price` (bk_tree.py lines 69-95), restricted to the
evolution of the `alpha` array.  `rf i` abstracts the bracketed
`optimize.brentq(obj, -12, 12)` attempt at step `i` (`none` when it
raises), and `stop i` abstracts the degenerate-mass break test
`not np.any(Q > 1e-16)` at step `i`; both are sound oracles because the
`Q` state at step `i` is a deterministic function of the step index given
the run's inputs.  On root-finding failure the step stores
`alpha[i-1]` when `i > 0` and the fixed default `d0` (standing for the
irrational `np.log(0.05)`) at step 0, and the loop continues. -/
def calibGo (rf : ℕ → Option ℚ) (stop : ℕ → Bool) (d0 : ℚ) :
    List ℕ → List ℚ → List ℚ
  | [], alpha => alpha
  | i :: rest, alpha =>
    if stop i then alpha
    else
      let v := match rf i with
        | some v => v
        | none => if i > 0 then alpha.getD (i - 1) 0 else d0
      calibGo rf stop d0 rest (alpha.set i v)

/-- The calibrated `alpha` array after the forward-calibration loop:
`alpha = np.zeros(N)` (line 56) updated over steps `0, …, N−2`. -/
def calibrateAlphas (rf : ℕ → Option ℚ) (stop : ℕ → Bool) (d0 : ℚ)
    (N : ℕ) : List ℚ :=
  calibGo rf stop d0 (List.range (N - 1)) (List.replicate N 0)

/-- C1: for every call to `MasterPricer.metrics` that reaches the bump
phase (base price above the `1e-8` threshold and bump size not below the
`1e-12` threshold), the base curve handle's link after the call equals its
link before the call, on every exit path: when both bumped repricings
succeed and when either of them raises. -/
theorem metrics_restores_base_link {E S : Type}
    (calcF : Curve → Option S → Except E (ℚ × Option S))
    (dy : ℚ) (link0 : Curve) (cache0 : Option S) (P0 : ℚ) (st : Option S)
    (hbase : calcF link0 cache0 = .ok (P0, st))
    (h1 : ¬ P0 ≤ 1 / 100000000) (h2 : ¬ |dy| < 1 / 1000000000000) :
    (metrics calcF dy link0 cache0).2 = link0 := by
  unfold metrics
  rw [hbase]
  simp only [if_neg h1, if_neg h2]
  cases hup : calcF (Curve.spread link0 dy) st with
  | error e => simp [hup]
  | ok v =>
    obtain ⟨Pup, c1⟩ := v
    cases hdn : calcF (Curve.spread link0 (-dy)) st with
    | error e => simp [hup, hdn]
    | ok w =>
      obtain ⟨Pdn, c2⟩ := w
      simp [hup, hdn]

/-- Witness for C1 at a concrete instance: base price 1, bump 1/100. -/
theorem metrics_restores_base_link_witness :
    (fun (_ : Curve) (_ : Option Unit) =>
        (.ok (1, none) : Except Unit (ℚ × Option Unit))) (Curve.base 0) none
      = .ok (1, none)
    ∧ ¬ ((1 : ℚ) ≤ 1 / 100000000)
    ∧ ¬ (|(1 / 100 : ℚ)| < 1 / 1000000000000)
    ∧ (metrics
        (fun (_ : Curve) (_ : Option Unit) =>
          (.ok (1, none) : Except Unit (ℚ × Option Unit)))
        (1 / 100) (Curve.base 0) none).2 = Curve.base 0 :=
  ⟨rfl, by norm_num, (by rw [abs_of_pos (show (0:ℚ) < 1 / 100 by norm_num)]; norm_num),
    metrics_restores_base_link _ (1 / 100) (Curve.base 0) none 1 none rfl
      (by norm_num) (by rw [abs_of_pos (show (0:ℚ) < 1 / 100 by norm_num)]; norm_num)⟩

/-- C2: `MasterPricer.metrics` returns all zeros when `P0 ≤ 1e-8`, returns
`(P0, 0, 0)` when `|dy| < 1e-12`, and otherwise (both bumped repricings
succeeding) returns `effDuration = (P_down − P_up) / (2·P0·dy)` and
`effConvexity = (P_up + P_down − 2·P0) / (P0·dy²)`, where `P_up`/`P_down`
are the prices computed under the curve spread-shifted by `+dy`/`−dy`. -/
theorem metrics_values {E S : Type}
    (calcF : Curve → Option S → Except E (ℚ × Option S))
    (dy : ℚ) (link0 : Curve) (cache0 : Option S) :
    (∀ P0 st, calcF link0 cache0 = .ok (P0, st) → P0 ≤ 1 / 100000000 →
      (metrics calcF dy link0 cache0).1 = .ok ⟨0, 0, 0, st⟩)
    ∧ (∀ P0 st, calcF link0 cache0 = .ok (P0, st) →
        ¬ P0 ≤ 1 / 100000000 → |dy| < 1 / 1000000000000 →
        (metrics calcF dy link0 cache0).1 = .ok ⟨P0, 0, 0, st⟩)
    ∧ (∀ P0 st Pup c1 Pdn c2, calcF link0 cache0 = .ok (P0, st) →
        ¬ P0 ≤ 1 / 100000000 → ¬ |dy| < 1 / 1000000000000 →
        calcF (Curve.spread link0 dy) st = .ok (Pup, c1) →
        calcF (Curve.spread link0 (-dy)) st = .ok (Pdn, c2) →
        (metrics calcF dy link0 cache0).1 =
          .ok ⟨P0, (Pdn - Pup) / (2 * P0 * dy),
               (Pup + Pdn - 2 * P0) / (P0 * dy ^ 2), st⟩) := by
  refine ⟨?_, ?_, ?_⟩
  · intro P0 st hbase hP0
    unfold metrics
    rw [hbase]
    simp only [if_pos hP0]
  · intro P0 st hbase hP0 hdy
    unfold metrics
    rw [hbase]
    simp only [if_neg hP0, if_pos hdy]
  · intro P0 st Pup c1 Pdn c2 hbase hP0 hdy hup hdn
    unfold metrics
    rw [hbase]
    simp only [if_neg hP0, if_neg hdy, hup, hdn]

/-- Witness for C2: the three branches at concrete instances (base prices
`1e-9`, `2`, `2`; bumps `1/100`, `0`, `1/100`; bumped prices 3 and 5). -/
theorem metrics_values_witness :
    ((1 / 1000000000 : ℚ) ≤ 1 / 100000000
      ∧ (metrics
          (fun (_ : Curve) (_ : Option Unit) =>
            (.ok (1 / 1000000000, none) : Except Unit (ℚ × Option Unit)))
          (1 / 100) (Curve.base 0) none).1 = .ok ⟨0, 0, 0, none⟩)
    ∧ (¬ ((2 : ℚ) ≤ 1 / 100000000) ∧ |(0 : ℚ)| < 1 / 1000000000000
      ∧ (metrics
          (fun (_ : Curve) (_ : Option Unit) =>
            (.ok (2, none) : Except Unit (ℚ × Option Unit)))
          0 (Curve.base 0) none).1 = .ok ⟨2, 0, 0, none⟩)
    ∧ (metrics
        (fun (c : Curve) (_ : Option Unit) =>
          (.ok ((if c = Curve.spread (Curve.base 0) (1 / 100) then 3
                 else if c = Curve.spread (Curve.base 0) (-(1 / 100)) then 5
                 else 2), none) : Except Unit (ℚ × Option Unit)))
        (1 / 100) (Curve.base 0) none).1 =
        .ok ⟨2, (5 - 3) / (2 * 2 * (1 / 100)),
             (3 + 5 - 2 * 2) / (2 * (1 / 100) ^ 2), none⟩ :=
  ⟨⟨by norm_num,
    (metrics_values _ (1 / 100) (Curve.base 0) none).1 (1 / 1000000000) none
      rfl (by norm_num)⟩,
   ⟨by norm_num, by norm_num,
    (metrics_values _ 0 (Curve.base 0) none).2.1 2 none rfl (by norm_num)
      (by norm_num)⟩,
   (metrics_values _ (1 / 100) (Curve.base 0) none).2.2 2 none 3 none 5 none
     (by rw [if_neg (fun h => by cases h), if_neg (fun h => by cases h)])
     (by norm_num) (by rw [abs_of_pos (show (0:ℚ) < 1 / 100 by norm_num)]; norm_num) (by norm_num) (by norm_num)⟩

/-- C10: `MasterPricer.calculate` returns price `0.0` and no state cache
for every method string outside the seven recognized keys, and likewise
when a recognized QuantLib reference-tree method's model construction or
pricing raises. -/
theorem calculate_fallthrough_zero {E S : Type} (straight : Except E ℚ)
    (accrued : ℚ) (engHW engPDE engKWF : Except E (ℚ × S))
    (qlTree : String → Except E ℚ) :
    (∀ method : String,
      method ∉ [mStraight, mHwLsmc, mCirPde, mKwfManual, mHwQl, mCirQl, mKwfQl] →
      calculate straight accrued engHW engPDE engKWF qlTree method = .ok (0, none))
    ∧ (∀ (method : String) (e : E),
        (method = mHwQl ∨ method = mCirQl ∨ method = mKwfQl) →
        qlTree method = .error e →
        calculate straight accrued engHW engPDE engKWF qlTree method
          = .ok (0, none)) := by
  constructor
  · intro method hm
    simp only [List.mem_cons, List.not_mem_nil, or_false, not_or] at hm
    obtain ⟨h1, h2, h3, h4, h5, h6, h7⟩ := hm
    unfold calculate
    rw [if_neg h1, if_neg h2, if_neg h3, if_neg h4]
    by_cases hq : hasSubstr qlTreeTag method.toList
    · rw [if_pos hq, if_neg]
      rintro (h | h | h)
      · exact h5 h
      · exact h6 h
      · exact h7 h
    · rw [if_neg hq]
  · intro method e hm hq
    rcases hm with rfl | rfl | rfl
    · unfold calculate
      rw [if_neg (by decide), if_neg (by decide), if_neg (by decide),
        if_neg (by decide), if_pos (by decide), if_pos (by decide), hq]
    · unfold calculate
      rw [if_neg (by decide), if_neg (by decide), if_neg (by decide),
        if_neg (by decide), if_pos (by decide), if_pos (by decide), hq]
    · unfold calculate
      rw [if_neg (by decide), if_neg (by decide), if_neg (by decide),
        if_neg (by decide), if_pos (by decide), if_pos (by decide), hq]

/-- Witness for C10: the unrecognized method `"BOGUS"` and a failing
QuantLib reference-tree call both yield `(0, none)`. -/
theorem calculate_fallthrough_zero_witness :
    calculate (E := Unit) (S := Unit) (.ok 1) 0 (.ok (1, ())) (.ok (1, ()))
      (.ok (1, ())) (fun _ => .error ()) "BOGUS" = .ok (0, none)
    ∧ calculate (E := Unit) (S := Unit) (.ok 1) 0 (.ok (1, ())) (.ok (1, ()))
      (.ok (1, ())) (fun _ => .error ()) mHwQl = .ok (0, none) :=
  ⟨(calculate_fallthrough_zero (.ok 1) 0 (.ok (1, ())) (.ok (1, ()))
      (.ok (1, ())) (fun _ => .error ())).1 "BOGUS" (by decide),
   (calculate_fallthrough_zero (.ok 1) 0 (.ok (1, ())) (.ok (1, ()))
      (.ok (1, ())) (fun _ => .error ())).2 mHwQl () (Or.inl rfl) rfl⟩

/-- C3: in the MC backward induction, at every step whose end `i+1` is a
call step, a path is exercised exactly when its continuation estimate
minus the cashflow amount paid in the step exceeds the call strike;
exercised paths are reset to strike plus that cashflow, and non-exercised
paths keep their (discounted, cashflow-adjusted) running value. -/
theorem lsmc_exercise_rule (nPaths : ℕ) (X D : ℕ → ℕ → ℚ) (tg : ℕ → ℚ)
    (cfs : List (ℚ × ℚ)) (callMap : ℕ → Option ℚ) (lstsq : Lstsq)
    (isBase : Bool) (s : LoopState) (i : ℕ) (strike : ℚ)
    (hcall : callMap (i + 1) = some strike) :
    ∀ p, (lsmcBody nPaths X D tg cfs callMap lstsq isBase s i).V p =
      if basisVal
          (bodyBetas lstsq isBase s.regs (fun p => X p (i + 1))
            (fun p => s.V p * D p i + stepCashflow cfs (tg i) (tg (i + 1))) i)
          (X p (i + 1))
          - stepCashflow cfs (tg i) (tg (i + 1)) > strike
      then strike + stepCashflow cfs (tg i) (tg (i + 1))
      else s.V p * D p i + stepCashflow cfs (tg i) (tg (i + 1)) := by
  intro p
  unfold lsmcBody
  rw [hcall]
  simp only [decide_eq_true_eq]

/-- Witness for C3: a concrete non-base step with stored coefficients
`(1,0,0)`, strike 5, one coupon of 10 inside the step: continuation 1
minus coupon 10 does not exceed 5, so the path keeps its value 10. -/
theorem lsmc_exercise_rule_witness :
    (fun st => if st = 1 then some (5 : ℚ) else none) (0 + 1) = some 5
    ∧ (lsmcBody 2 (fun p i => (p : ℚ) + i) (fun _ _ => 1) (fun i => (i : ℚ))
        [(1 / 2, 10)] (fun st => if st = 1 then some (5 : ℚ) else none)
        (fun _ _ => none) false ⟨fun _ => 0, [(0, (1, 0, 0))], []⟩ 0).V 0
      = 10 :=
  ⟨rfl, by
    rw [lsmc_exercise_rule 2 (fun p i => (p : ℚ) + i) (fun _ _ => 1)
      (fun i => (i : ℚ)) [(1 / 2, 10)]
      (fun st => if st = 1 then some (5 : ℚ) else none) (fun _ _ => none)
      false ⟨fun _ => 0, [(0, (1, 0, 0))], []⟩ 0 5 rfl 0]
    norm_num [basisVal, bodyBetas, stepCashflow, List.filter, List.lookup,
      zeroBetas]⟩

/-- On a bumped run (`isBase = false`) one loop iteration leaves the
regression map and the diagnostics untouched, and does not depend on the
least-squares solver. -/
theorem lsmcBody_bumped (nPaths : ℕ) (X D : ℕ → ℕ → ℚ) (tg : ℕ → ℚ)
    (cfs : List (ℚ × ℚ)) (callMap : ℕ → Option ℚ) (lstsq lstsq' : Lstsq)
    (s : LoopState) (i : ℕ) :
    (lsmcBody nPaths X D tg cfs callMap lstsq false s i).regs = s.regs
    ∧ (lsmcBody nPaths X D tg cfs callMap lstsq false s i).exProb = s.exProb
    ∧ lsmcBody nPaths X D tg cfs callMap lstsq false s i
      = lsmcBody nPaths X D tg cfs callMap lstsq' false s i := by
  unfold lsmcBody
  cases callMap (i + 1) with
  | none => exact ⟨rfl, rfl, rfl⟩
  | some strike => exact ⟨rfl, rfl, rfl⟩

/-- Folding bumped-run iterations over any step list preserves the
regression map and diagnostics and is solver-independent. -/
theorem lsmcFold_bumped (nPaths : ℕ) (X D : ℕ → ℕ → ℚ) (tg : ℕ → ℚ)
    (cfs : List (ℚ × ℚ)) (callMap : ℕ → Option ℚ) (lstsq lstsq' : Lstsq)
    (l : List ℕ) :
    ∀ s : LoopState,
      (l.foldl (lsmcBody nPaths X D tg cfs callMap lstsq false) s).regs
        = s.regs
      ∧ (l.foldl (lsmcBody nPaths X D tg cfs callMap lstsq false) s).exProb
        = s.exProb
      ∧ l.foldl (lsmcBody nPaths X D tg cfs callMap lstsq false) s
        = l.foldl (lsmcBody nPaths X D tg cfs callMap lstsq' false) s := by
  induction l with
  | nil => intro s; exact ⟨rfl, rfl, rfl⟩
  | cons i rest ih =>
    intro s
    obtain ⟨hb1, hb2, hb3⟩ :=
      lsmcBody_bumped nPaths X D tg cfs callMap lstsq lstsq' s i
    obtain ⟨h1, h2, h3⟩ := ih (lsmcBody nPaths X D tg cfs callMap lstsq false s i)
    refine ⟨h1.trans hb1, h2.trans hb2, ?_⟩
    simpa only [List.foldl_cons, hb3] using h3

/-- C4: an MC price call supplied with a cache whose regression map is
non-empty fits no new regression (the result does not depend on the
least-squares solver, nor on the fresh-draw matrix) and returns the cache
with random matrix, coefficients and exercise diagnostics all equal to
their values before the call. -/
theorem hwLsmc_frozen_cache (lstsq lstsq' : Lstsq)
    (freshRng freshRng' : List (List ℚ)) (X D : ℕ → ℕ → ℚ) (tg : ℕ → ℚ)
    (cfs : List (ℚ × ℚ)) (callMap : ℕ → Option ℚ) (N : ℕ) (c : MCCache)
    (h : c.regressions ≠ []) :
    (hwLsmcPrice lstsq freshRng X D tg cfs callMap N (some c)).2 = c
    ∧ hwLsmcPrice lstsq freshRng X D tg cfs callMap N (some c)
      = hwLsmcPrice lstsq' freshRng' X D tg cfs callMap N (some c) := by
  obtain ⟨rng, regs, exP⟩ := c
  have hregs : regs ≠ [] := h
  have hb : regs.isEmpty = false := by
    cases regs with
    | nil => exact absurd rfl hregs
    | cons a t => rfl
  unfold hwLsmcPrice lsmcInduction
  simp only [Option.getD_some, hb]
  obtain ⟨h1, h2, h3⟩ :=
    lsmcFold_bumped rng.length X D tg cfs callMap lstsq lstsq'
      ((List.range N).reverse) ⟨fun _ => 0, regs, exP⟩
  constructor
  · rw [h1, h2]
  · rw [h3]

/-- Witness for C4: a one-path, one-step concrete run against a cache
holding frozen coefficients `(1,0,0)`. -/
theorem hwLsmc_frozen_cache_witness :
    (hwLsmcPrice (fun _ _ => none) [] (fun _ _ => 0) (fun _ _ => 1)
        (fun i => (i : ℚ)) [] (fun st => if st = 1 then some (5 : ℚ) else none)
        1 (some ⟨[[0]], [(0, (1, 0, 0))], []⟩)).2
      = ⟨[[0]], [(0, (1, 0, 0))], []⟩
    ∧ hwLsmcPrice (fun _ _ => none) [] (fun _ _ => 0) (fun _ _ => 1)
        (fun i => (i : ℚ)) [] (fun st => if st = 1 then some (5 : ℚ) else none)
        1 (some ⟨[[0]], [(0, (1, 0, 0))], []⟩)
      = hwLsmcPrice (fun _ _ => some zeroBetas) [[1]] (fun _ _ => 0)
        (fun _ _ => 1) (fun i => (i : ℚ)) []
        (fun st => if st = 1 then some (5 : ℚ) else none)
        1 (some ⟨[[0]], [(0, (1, 0, 0))], []⟩) :=
  hwLsmc_frozen_cache (fun _ _ => none) (fun _ _ => some zeroBetas) [] [[1]]
    (fun _ _ => 0) (fun _ _ => 1) (fun i => (i : ℚ)) []
    (fun st => if st = 1 then some (5 : ℚ) else none) 1
    ⟨[[0]], [(0, (1, 0, 0))], []⟩ (by simp)

/-- C5 counterexample: with a least-squares solver that raises at the base
run's call date, the MC pricing call does not fail: it returns a normal
price with the coefficients silently defaulted to `np.zeros(3)` and stored
in the cache (hw_lsmc.py lines 176-180 catch the exception), contradicting
the claim that the failure is a hard failure propagated to the caller. -/
theorem lsmc_regression_failure_not_propagated :
    hwLsmcPrice (fun _ _ => none) [[0]] (fun _ _ => 0) (fun _ _ => 1)
      (fun i => (i : ℚ)) [] (fun st => if st = 1 then some (5 : ℚ) else none)
      1 none
    = (0, ⟨[[0]], [(0, zeroBetas)], [(1, 0)]⟩) := by
  norm_num [hwLsmcPrice, lsmcInduction, lsmcBody, bodyBetas, pathMean,
    stepCashflow, exerciseFrac, basisVal, zeroBetas, List.range_succ,
    List.lookup, List.filter, List.countP, List.countP.go]

/-- C5 amended: a least-squares failure at a call date on the base run is
caught, not propagated: the pricing call behaves exactly as if the solver
had returned the zero coefficient vector, and still returns a price. -/
theorem lsmc_regression_failure_defaults_to_zero
    (freshRng : List (List ℚ)) (X D : ℕ → ℕ → ℚ) (tg : ℕ → ℚ)
    (cfs : List (ℚ × ℚ)) (callMap : ℕ → Option ℚ) (N : ℕ)
    (cache0 : Option MCCache) :
    hwLsmcPrice (fun _ _ => none) freshRng X D tg cfs callMap N cache0
      = hwLsmcPrice (fun _ _ => some zeroBetas) freshRng X D tg cfs callMap
          N cache0 := by
  have hbody : ∀ (b : Bool) (s : LoopState) (i : ℕ),
      lsmcBody (cache0.getD ⟨freshRng, [], []⟩).rng.length X D tg cfs callMap
          (fun _ _ => none) b s i
        = lsmcBody (cache0.getD ⟨freshRng, [], []⟩).rng.length X D tg cfs
          callMap (fun _ _ => some zeroBetas) b s i := by
    intro b s i
    unfold lsmcBody bodyBetas
    cases callMap (i + 1) with
    | none => rfl
    | some strike => cases b with
      | true => rfl
      | false => rfl
  have hfold : ∀ (l : List ℕ) (s : LoopState),
      l.foldl (lsmcBody (cache0.getD ⟨freshRng, [], []⟩).rng.length X D tg cfs
        callMap (fun _ _ => none) (cache0.getD ⟨freshRng, [], []⟩).regressions.isEmpty) s
      = l.foldl (lsmcBody (cache0.getD ⟨freshRng, [], []⟩).rng.length X D tg cfs
        callMap (fun _ _ => some zeroBetas)
        (cache0.getD ⟨freshRng, [], []⟩).regressions.isEmpty) s := by
    intro l
    induction l with
    | nil => intro s; rfl
    | cons i rest ih =>
      intro s
      simp only [List.foldl_cons, hbody, ih]
  unfold hwLsmcPrice lsmcInduction
  simp only [hfold]

/-- C6 counterexample: at concrete CIR parameters
(`theta = 1/25`, `k = 1/2`, `sigma = 1/10`, `dt = 1/100`, `dr = 1/1000`,
`r_min = 1/100000`) the boundary correction changes the super-diagonal
entry of the first row (`C[0] -= A[0]` with `A[0] ≠ 0`), so the correction
does not leave the other entries of that row unchanged as claimed. -/
theorem cir_boundary_changes_superdiag :
    coeffC' ⟨1 / 25, 1 / 2, 1 / 10, 1 / 100, 1 / 1000, 1 / 100000⟩ 0
      ≠ coeffC ⟨1 / 25, 1 / 2, 1 / 10, 1 / 100, 1 / 1000, 1 / 100000⟩ 0 := by
  norm_num [coeffC', coeffC, coeffA, cirDrift, cirDiff, gridR]

/-- C6 amended: the lower-boundary correction of the Crank-Nicolson
operators adds twice the would-be sub-diagonal coefficient to the
diagonal, subtracts it from the super-diagonal, and zeroes the
sub-diagonal (the ghost node is eliminated by `V[-1] ≈ 2·V[0] − V[1]`);
rows other than the first are unchanged, and the first matrix row has
support only on columns 0 and 1, referencing no node outside the grid. -/
theorem cir_boundary_correction (p : CNParams) :
    coeffA' p 0 = 0
    ∧ coeffB' p 0 = coeffB p 0 + 2 * coeffA p 0
    ∧ coeffC' p 0 = coeffC p 0 - coeffA p 0
    ∧ (∀ j, j ≠ 0 →
        coeffA' p j = coeffA p j ∧ coeffB' p j = coeffB p j
          ∧ coeffC' p j = coeffC p j)
    ∧ matL p 0 0 = coeffB' p 0
    ∧ matL p 0 1 = coeffC' p 0
    ∧ (∀ j, 2 ≤ j → matL p 0 j = 0) := by
  refine ⟨rfl, rfl, rfl, fun j hj => ?_, rfl, ?_, fun j hj => ?_⟩
  · exact ⟨if_neg hj, if_neg hj, if_neg hj⟩
  · unfold matL
    rw [if_neg (by omega), if_neg (by omega), if_pos rfl]
  · unfold matL
    rw [if_neg (by omega), if_neg (by omega), if_neg (by omega)]

/-- Witness for C6 (amended): the hypothesis-bearing clauses applied at
the concrete parameters of the counterexample, at rows `j = 1` and
`j = 2`. -/
theorem cir_boundary_correction_witness :
    (coeffA' ⟨1 / 25, 1 / 2, 1 / 10, 1 / 100, 1 / 1000, 1 / 100000⟩ 1
        = coeffA ⟨1 / 25, 1 / 2, 1 / 10, 1 / 100, 1 / 1000, 1 / 100000⟩ 1
      ∧ coeffB' ⟨1 / 25, 1 / 2, 1 / 10, 1 / 100, 1 / 1000, 1 / 100000⟩ 1
        = coeffB ⟨1 / 25, 1 / 2, 1 / 10, 1 / 100, 1 / 1000, 1 / 100000⟩ 1
      ∧ coeffC' ⟨1 / 25, 1 / 2, 1 / 10, 1 / 100, 1 / 1000, 1 / 100000⟩ 1
        = coeffC ⟨1 / 25, 1 / 2, 1 / 10, 1 / 100, 1 / 1000, 1 / 100000⟩ 1)
    ∧ matL ⟨1 / 25, 1 / 2, 1 / 10, 1 / 100, 1 / 1000, 1 / 100000⟩ 0 2 = 0 :=
  ⟨(cir_boundary_correction ⟨1 / 25, 1 / 2, 1 / 10, 1 / 100, 1 / 1000,
      1 / 100000⟩).2.2.2.1 1 (by norm_num),
   (cir_boundary_correction ⟨1 / 25, 1 / 2, 1 / 10, 1 / 100, 1 / 1000,
      1 / 100000⟩).2.2.2.2.2.2 2 (by norm_num)⟩

/-- C9: with the theta-shift flag at its default (`True`), the PDE engine
uses `theta_effective = theta + (r0 − r0_base)` against a supplied cache
holding `r0_base`; on the base call (no cache) `theta_effective` equals
the supplied theta exactly and `r0` is cached as `r0_base`; and a call
with a supplied cache returns that cache unchanged. -/
theorem cir_theta_shift (θ r0 : ℚ) :
    (∀ rb, (cirThetaPhase true θ r0 (some ⟨some rb⟩)).1 = θ + (r0 - rb))
    ∧ (cirThetaPhase true θ r0 none).1 = θ
    ∧ (cirThetaPhase true θ r0 none).2 = ⟨some r0⟩
    ∧ (∀ c, (cirThetaPhase true θ r0 (some c)).2 = c) := by
  refine ⟨fun rb => rfl, ?_, rfl, fun c => rfl⟩
  show θ + (r0 - (Option.getD (some r0) r0)) = θ
  simp

/-- Rounding to nearest with ties to even leaves a residual within
`[-1/2, 1/2]`. -/
theorem roundHalfEven_residual (q : ℚ) :
    -(1 / 2) ≤ q - (roundHalfEven q : ℚ)
    ∧ q - (roundHalfEven q : ℚ) ≤ 1 / 2 := by
  have h0 : 0 ≤ Int.fract q := Int.fract_nonneg q
  have h1 : Int.fract q < 1 := Int.fract_lt_one q
  have hfr : Int.fract q = q - (⌊q⌋ : ℚ) := rfl
  rw [hfr] at h0 h1
  unfold roundHalfEven
  split_ifs with hlt hgt heven
  · rw [hfr] at hlt
    constructor <;> linarith
  · rw [hfr] at hgt
    constructor <;> push_cast <;> linarith
  · have heq : q - (⌊q⌋ : ℚ) = 1 / 2 := by
      rw [hfr] at hlt hgt
      linarith [le_of_not_lt hlt, le_of_not_lt hgt]
    constructor <;> linarith
  · have heq : q - (⌊q⌋ : ℚ) = 1 / 2 := by
      rw [hfr] at hlt hgt
      linarith [le_of_not_lt hlt, le_of_not_lt hgt]
    constructor <;> push_cast <;> linarith

/-- C7: for every node index `j` and parameters `a ≥ 0`, `dt > 0` and
`dx > 0` (the source's `dx = sigma·sqrt(3·dt)` with `sigma > 0`), the
trinomial branching probabilities satisfy `pu, pm, pd ≥ 0` and
`pu + pm + pd = 1`, and the branch offset `k = round(mu·dt/dx)` keeps the
residual `mu·dt/dx − k` within `[−1/2, 1/2]`. -/
theorem tree_probabilities_valid (a dt dx : ℚ) (j : ℤ)
    (ha : 0 ≤ a) (hdt : 0 < dt) (hdx : 0 < dx) :
    0 ≤ (treeBranch a dt dx j).2.1
    ∧ 0 ≤ (treeBranch a dt dx j).2.2.1
    ∧ 0 ≤ (treeBranch a dt dx j).2.2.2
    ∧ (treeBranch a dt dx j).2.1 + (treeBranch a dt dx j).2.2.1
        + (treeBranch a dt dx j).2.2.2 = 1
    ∧ -(1 / 2) ≤ -a * (j : ℚ) * dx * dt / dx
        - ((treeBranch a dt dx j).1 : ℚ)
    ∧ -a * (j : ℚ) * dx * dt / dx - ((treeBranch a dt dx j).1 : ℚ)
      ≤ 1 / 2 := by
  obtain ⟨he1, he2⟩ := roundHalfEven_residual (-a * (j : ℚ) * dx * dt / dx)
  simp only [treeBranch]
  set e := -a * (j : ℚ) * dx * dt / dx
    - ((roundHalfEven (-a * (j : ℚ) * dx * dt / dx)) : ℚ) with hedef
  refine ⟨by nlinarith [sq_nonneg (e + 1 / 2)], by nlinarith,
    by nlinarith [sq_nonneg (e - 1 / 2)], by ring, he1, he2⟩

/-- Witness for C7 at `a = 1/2`, `dt = 1/2`, `dx = 1/100`, `j = −3`
(branch offset 1, residual −1/4). -/
theorem tree_probabilities_valid_witness :
    (0 : ℚ) ≤ 1 / 2 ∧
    0 ≤ (treeBranch (1 / 2) (1 / 2) (1 / 100) (-3)).2.1
    ∧ 0 ≤ (treeBranch (1 / 2) (1 / 2) (1 / 100) (-3)).2.2.1
    ∧ 0 ≤ (treeBranch (1 / 2) (1 / 2) (1 / 100) (-3)).2.2.2
    ∧ (treeBranch (1 / 2) (1 / 2) (1 / 100) (-3)).2.1
        + (treeBranch (1 / 2) (1 / 2) (1 / 100) (-3)).2.2.1
        + (treeBranch (1 / 2) (1 / 2) (1 / 100) (-3)).2.2.2 = 1
    ∧ -(1 / 2) ≤ -(1 / 2) * ((-3 : ℤ) : ℚ) * (1 / 100) * (1 / 2) / (1 / 100)
        - (((treeBranch (1 / 2) (1 / 2) (1 / 100) (-3)).1 : ℤ) : ℚ)
    ∧ -(1 / 2) * ((-3 : ℤ) : ℚ) * (1 / 100) * (1 / 2) / (1 / 100)
        - (((treeBranch (1 / 2) (1 / 2) (1 / 100) (-3)).1 : ℤ) : ℚ)
      ≤ 1 / 2 :=
  ⟨by norm_num,
   tree_probabilities_valid (1 / 2) (1 / 2) (1 / 100) (-3) (by norm_num)
     (by norm_num) (by norm_num)⟩

/-- `calibGo` preserves the length of the `alpha` array: the calibration
loop never fails, it only updates entries in place. -/
theorem calibGo_length (rf : ℕ → Option ℚ) (stop : ℕ → Bool) (d0 : ℚ)
    (l : List ℕ) : ∀ alpha : List ℚ,
    (calibGo rf stop d0 l alpha).length = alpha.length := by
  induction l with
  | nil => intro alpha; rfl
  | cons i rest ih =>
    intro alpha
    unfold calibGo
    by_cases h : stop i = true
    · rw [if_pos h]
    · rw [if_neg h, ih, List.length_set]

/-- Entries below the first index of a `range'` step block are untouched
by the calibration loop. -/
theorem calibGo_getD_lt (rf : ℕ → Option ℚ) (stop : ℕ → Bool) (d0 : ℚ) :
    ∀ (k s : ℕ) (alpha : List ℚ) (j : ℕ), j < s →
    (calibGo rf stop d0 (List.range' s k) alpha).getD j 0
      = alpha.getD j 0 := by
  intro k
  induction k with
  | zero => intro s alpha j _; rfl
  | succ k ih =>
    intro s alpha j hj
    rw [List.range'_succ s k 1]
    unfold calibGo
    by_cases h : stop s = true
    · rw [if_pos h]
    · rw [if_neg h, ih (s + 1) _ j (by omega)]
      simp [List.getD_eq_getElem?_getD,
        List.getElem?_set_ne (show s ≠ j by omega)]

/-- Value stored at the first index of a step block when the stop oracle
never fires: the root-finder's result, or the fallback on failure. -/
theorem calibGo_getD_head (rf : ℕ → Option ℚ) (stop : ℕ → Bool) (d0 : ℚ)
    (k s : ℕ) (alpha : List ℚ) (hstop : ∀ j, stop j = false)
    (hs : s < alpha.length) :
    (calibGo rf stop d0 (List.range' s (k + 1)) alpha).getD s 0
      = match rf s with
        | some v => v
        | none => if s > 0 then alpha.getD (s - 1) 0 else d0 := by
  rw [List.range'_succ s k 1]
  unfold calibGo
  rw [if_neg (by simp [hstop])]
  rw [calibGo_getD_lt rf stop d0 k (s + 1) _ s (by omega)]
  simp [List.getD_eq_getElem?_getD, List.getElem?_set_self, hs]

/-- When the stop oracle never fires, the calibration loop composes over
concatenated step lists. -/
theorem calibGo_append (rf : ℕ → Option ℚ) (stop : ℕ → Bool) (d0 : ℚ)
    (hstop : ∀ j, stop j = false) :
    ∀ (l1 l2 : List ℕ) (alpha : List ℚ),
    calibGo rf stop d0 (l1 ++ l2) alpha
      = calibGo rf stop d0 l2 (calibGo rf stop d0 l1 alpha) := by
  intro l1
  induction l1 with
  | nil => intro l2 alpha; rfl
  | cons i rest ih =>
    intro l2 alpha
    have hs := hstop i
    simp only [List.cons_append, calibGo, hs, Bool.false_eq_true, if_false]
    exact ih l2 _

/-- C8: when the per-step bracketed root-finding is attempted at every
step (no degenerate-mass break), a root-finding failure at step `i` never
aborts the calibration: the result still has one level per time node, and
the failed step's level equals the previous step's stored level for
`i > 0` and the fixed default `d0` (the source's `np.log(0.05)`) at step
0. -/
theorem tree_calibration_fallback (rf : ℕ → Option ℚ) (stop : ℕ → Bool)
    (d0 : ℚ) (N i : ℕ) (hstop : ∀ j, stop j = false) (hi : i < N - 1)
    (hrf : rf i = none) :
    (calibrateAlphas rf stop d0 N).length = N
    ∧ (calibrateAlphas rf stop d0 N).getD i 0 =
      if i = 0 then d0 else (calibrateAlphas rf stop d0 N).getD (i - 1) 0 := by
  have hlen : (calibrateAlphas rf stop d0 N).length = N := by
    unfold calibrateAlphas
    rw [calibGo_length, List.length_replicate]
  refine ⟨hlen, ?_⟩
  unfold calibrateAlphas
  have hsplit : List.range (N - 1)
      = List.range' 0 i ++ List.range' i (N - 1 - i) := by
    have happ := List.range'_append 0 i (N - 1 - i) 1
    rw [one_mul] at happ
    simp only [Nat.zero_add] at happ
    rw [show N - 1 - i + i = N - 1 by omega] at happ
    rw [List.range_eq_range']
    exact happ.symm
  rw [hsplit, calibGo_append rf stop d0 hstop]
  have hAlen :
      (calibGo rf stop d0 (List.range' 0 i) (List.replicate N 0)).length
        = N := by
    rw [calibGo_length, List.length_replicate]
  have hk : N - 1 - i = (N - 1 - i - 1) + 1 := by omega
  by_cases hi0 : i = 0
  · subst hi0
    rw [if_pos rfl, hk,
      calibGo_getD_head rf stop d0 _ 0 _ hstop (by omega), hrf]
    simp
  · rw [if_neg hi0, hk,
      calibGo_getD_head rf stop d0 _ i _ hstop (by omega), hrf,
      calibGo_getD_lt rf stop d0 _ i _ (i - 1) (by omega)]
    simp only [if_pos (show i > 0 by omega)]

/-- Witness for C8: four time nodes, root-finding failing exactly at step
1; the calibration returns four levels and step 1 falls back to step 0's
level. -/
theorem tree_calibration_fallback_witness :
    (calibrateAlphas (fun j => if j = 1 then none else some ((j : ℚ) + 10))
        (fun _ => false) (-3) 4).length = 4
    ∧ (calibrateAlphas (fun j => if j = 1 then none else some ((j : ℚ) + 10))
        (fun _ => false) (-3) 4).getD 1 0 =
      if (1 : ℕ) = 0 then (-3 : ℚ)
      else (calibrateAlphas (fun j => if j = 1 then none else some ((j : ℚ) + 10))
        (fun _ => false) (-3) 4).getD 0 0 :=
  tree_calibration_fallback (fun j => if j = 1 then none else some ((j : ℚ) + 10))
    (fun _ => false) (-3) 4 1 (fun _ => rfl) (by norm_num) rfl

end CallablePricer
